import Mathlib

/-!
# Verification of the demiurge memory subsystem

Shallow embedding of the client-side long-term memory subsystem:
the memory store (src/lib/memory-store.ts), the memory tools
(src/lib/memory-tools.ts) and the agent orchestrator (src/lib/agent.ts).

Conventions of the embedding:
* IndexedDB is modelled as a list of records in insertion order with
  unique ids; secondary-index cursor scans with direction prev are
  modelled as a deterministic stable sort by (key descending,
  primary key descending), which is the IndexedDB scan order.
* The Flexsearch index is modelled as an association list from record
  id to the indexed content string.  The internals of the Flexsearch
  matching engine are not modelled: a search call takes the list of
  raw ids the engine returned as an explicit argument, and theorems
  about search quantify over every possible engine output (restricted,
  where it matters, to ids actually present in the index).
* Timestamps (Date.now) and generated ids are passed as explicit
  arguments.
* The category field is a plain string, as at the JavaScript runtime;
  the closed enumeration is the list validCategories, which the tools
  check where the source checks it.
* Record metadata is omitted: it is opaque to every operation studied.
-/

/-! ## Generic string and list helpers (JS primitives used by the source) -/

/-- JS String.prototype.toLowerCase restricted to ASCII letters; CJK
characters are fixed points of both. -/
def lowerStr (s : String) : String :=
  String.mk (s.data.map Char.toLower)

/-- Character-list test: does the second list occur at the start of the first. -/
def charsStartWith : List Char → List Char → Bool
  | _, [] => true
  | [], _ :: _ => false
  | a :: as, b :: bs => a == b && charsStartWith as bs

/-- Character-list substring test. -/
def charsContain (hay needle : List Char) : Bool :=
  match hay with
  | [] => needle.isEmpty
  | _ :: rest => charsStartWith hay needle || charsContain rest needle

/-- JS String.prototype.includes. -/
def strIncludes (hay needle : String) : Bool :=
  charsContain hay.data needle.data

/-- JS String.prototype.slice(0, n) (all contents studied are in the BMP,
where code units and characters coincide). -/
def strTake (s : String) (n : Nat) : String :=
  String.mk (s.data.take n)

/-- Stable insertion of an element into a list sorted by the strict
comes-before relation: the element goes after every earlier element it
does not strictly precede.  Matches JS stable Array.prototype.sort. -/
def insertOrd (before : α → α → Bool) (x : α) : List α → List α
  | [] => [x]
  | y :: ys => if before x y then x :: y :: ys else y :: insertOrd before x ys

/-- Stable sort by a strict comes-before relation (insertion sort, folding
from the left so that equal elements keep their original order). -/
def sortOrd (before : α → α → Bool) (l : List α) : List α :=
  l.foldl (fun acc x => insertOrd before x acc) []

/-- Association-list lookup (JS Map.prototype.get). -/
def alGet (l : List (String × α)) (k : String) : Option α :=
  (l.find? (fun e => e.1 == k)).map (·.2)

/-- Association-list update-or-append (JS Map.prototype.set). -/
def alSet (k : String) (v : α) (l : List (String × α)) : List (String × α) :=
  if l.any (fun e => e.1 == k) then
    l.map (fun e => if e.1 == k then (k, v) else e)
  else
    l ++ [(k, v)]

/-- Association-list erase of every entry with the key (JS Map.prototype.delete,
Flexsearch Index.remove). -/
def alErase (k : String) (l : List (String × α)) : List (String × α) :=
  l.filter (fun e => e.1 != k)

/-- Deduplicate preserving first occurrence (JS new Set of an array). -/
def dedupStrs (l : List String) : List String :=
  l.foldl (fun acc x => if acc.contains x then acc else acc ++ [x]) []

/-! ## Tokenizer (memory-store.ts, chineseTokenizer fallback branch)

The source has two branches: one via the environment-provided
Intl.Segmenter, and a deterministic character-level fallback (CJK
character by character, whitespace-delimited ASCII words of length at
least 2, lowercased).  The embedding uses the deterministic fallback
branch; no claim depends on the segmentation itself. -/

/-- CJK unified ideograph test, the JS character class u4e00-u9fa5. -/
def isCJKChar (c : Char) : Bool :=
  0x4e00 ≤ c.toNat && c.toNat ≤ 0x9fa5

/-- ASCII alphanumeric test, the JS character class a-zA-Z0-9. -/
def isAlnumChar (c : Char) : Bool :=
  ('a' ≤ c && c ≤ 'z') || ('A' ≤ c && c ≤ 'Z') || ('0' ≤ c && c ≤ '9')

/-- Flush the pending ASCII buffer: kept only when at least 2 characters. -/
def flushBuf (buf : String) : List String :=
  if 2 ≤ buf.length then [lowerStr buf] else []

/-- The character-by-character tokenizer loop of the fallback branch. -/
def tokenizeChars : List Char → String → List String
  | [], buf => flushBuf buf
  | c :: rest, buf =>
    if isCJKChar c then
      flushBuf buf ++ [String.mk [c]] ++ tokenizeChars rest ""
    else if isAlnumChar c then
      tokenizeChars rest (buf.push c)
    else
      flushBuf buf ++ tokenizeChars rest ""

/-- chineseTokenizer: tokenize and deduplicate preserving order. -/
def chineseTokenizer (text : String) : List String :=
  dedupStrs (tokenizeChars text.data "")

/-! ## Memory records and store state (memory-store.ts) -/

/-- StoredMemory (memory-store.ts).  importance is an Int clamped to
[1,10] on write; isValid is the number 1 (valid) or 0 (invalid), kept
numeric as in the source for IndexedDB compatibility; metadata omitted. -/
structure StoredMemory where
  id : String
  content : String
  category : String
  importance : Int
  keywords : List String
  createdAt : Nat
  lastAccessedAt : Nat
  accessCount : Nat
  isValid : Nat
deriving DecidableEq, Repr

/-- A search hit: a stored memory together with its relevance score. -/
structure MemorySearchResult where
  toStoredMemory : StoredMemory
  relevanceScore : Int
deriving DecidableEq, Repr

/-- The state of the MemoryStore (after lazy index initialization):
the IndexedDB object store in insertion order, the Flexsearch index
entries (id, indexed content), and the in-memory cache indexedMemories. -/
structure StoreState where
  db : List StoredMemory
  searchIndex : List (String × String)
  indexedMemories : List (String × StoredMemory)
deriving DecidableEq, Repr

/-- The empty store (fresh install, empty index). -/
def emptyStore : StoreState := ⟨[], [], []⟩

/-- The closed category enumeration of the data model. -/
def validCategories : List String :=
  ["fact", "preference", "event", "correction", "context"]

/-- Math.max(1, Math.min(10, importance)). -/
def clampImportance (i : Int) : Int := max 1 (min 10 i)

/-- extractKeywords (memory-store.ts): delegates to the tokenizer. -/
def extractKeywords (content : String) : List String :=
  chineseTokenizer content

/-- IndexedDB get by primary key (first and only record with the id). -/
def lookupDb (s : StoreState) (id : String) : Option StoredMemory :=
  s.db.find? (fun r => r.id == id)

/-- IndexedDB cursor order of the category index with direction prev and
range only(category): equal keys, so primary key (id) descending. -/
def beforeByIdDesc (a b : StoredMemory) : Bool :=
  decide (b.id < a.id)

/-- IndexedDB cursor order of the importance index with direction prev:
importance descending, then primary key descending. -/
def beforeByImportanceDesc (a b : StoredMemory) : Bool :=
  b.importance < a.importance || (a.importance == b.importance && decide (b.id < a.id))

/-- IndexedDB cursor order of the createdAt index with direction prev:
creation time descending, then primary key descending. -/
def beforeByCreatedDesc (a b : StoredMemory) : Bool :=
  b.createdAt < a.createdAt || (a.createdAt == b.createdAt && decide (b.id < a.id))

/-- MemoryStore.store: rejects a duplicate id (IndexedDB add), clamps
importance, derives keywords, initializes accessCount = 0 and
isValid = 1, persists, and adds to the search index and cache. -/
def MemoryStore.store (s : StoreState) (content category : String) (importance : Int)
    (now : Nat) (id : String) : Option (StoredMemory × StoreState) :=
  if s.db.any (fun r => r.id == id) then none
  else
    let m : StoredMemory :=
      { id := id, content := content, category := category,
        importance := clampImportance importance,
        keywords := extractKeywords content,
        createdAt := now, lastAccessedAt := now,
        accessCount := 0, isValid := 1 }
    some (m, { db := s.db ++ [m],
               searchIndex := s.searchIndex ++ [(id, content)],
               indexedMemories := alSet id m s.indexedMemories })

/-- The recency bonus of the search scoring: Math.floor(7 - daysSinceAccess)
when the memory was accessed within the last 7 days. -/
def recencyBonus (now lastAccessedAt : Nat) : Int :=
  let ms : Int := (now : Int) - (lastAccessedAt : Int)
  if ms < 7 * 86400000 then 7 + Int.fdiv (-ms) 86400000 else 0

/-- The relevance score of the i-th raw engine hit. -/
def relevanceOf (mem : StoredMemory) (i : Nat) (queryLower : String) (now : Nat) : Int :=
  100 - 5 * (i : Int)
    + (if strIncludes (lowerStr mem.content) queryLower then 30 else 0)
    + mem.importance * 3
    + recencyBonus now mem.lastAccessedAt

/-- MemoryStore.search: empty (trimmed) query yields no results; otherwise
the raw ids returned by the Flexsearch engine (an explicit argument here)
are resolved through the indexedMemories cache, kept only when valid,
scored, sorted by descending relevance (stable) and truncated. -/
def MemoryStore.search (s : StoreState) (query : String) (lim : Nat)
    (raw : List String) (now : Nat) : List MemorySearchResult :=
  if query.trim == "" then []
  else
    let queryLower := lowerStr query
    let results := raw.enum.filterMap (fun p =>
      match alGet s.indexedMemories p.2 with
      | none => none
      | some mem =>
        if mem.isValid == 1 then
          some ⟨mem, relevanceOf mem p.1 queryLower now⟩
        else none)
    (sortOrd (fun a b => b.relevanceScore < a.relevanceScore) results).take lim

/-- MemoryStore.getByCategory: scan the category index descending,
collect valid records until the limit. -/
def MemoryStore.getByCategory (s : StoreState) (category : String) (lim : Nat) :
    List StoredMemory :=
  ((sortOrd beforeByIdDesc (s.db.filter (fun r => r.category == category))).filter
    (fun r => r.isValid == 1)).take lim

/-- MemoryStore.getMostImportant: scan the importance index descending,
collect valid records until the limit. -/
def MemoryStore.getMostImportant (s : StoreState) (lim : Nat) : List StoredMemory :=
  ((sortOrd beforeByImportanceDesc s.db).filter (fun r => r.isValid == 1)).take lim

/-- MemoryStore.getRecent: scan the createdAt index descending, collect
valid records until the limit. -/
def MemoryStore.getRecent (s : StoreState) (lim : Nat) : List StoredMemory :=
  ((sortOrd beforeByCreatedDesc s.db).filter (fun r => r.isValid == 1)).take lim

/-- MemoryStore.recordAccess: refresh lastAccessedAt, increment
accessCount, update the cache entry when present; silently no-op when
the id does not exist. -/
def MemoryStore.recordAccess (s : StoreState) (id : String) (now : Nat) : StoreState :=
  match lookupDb s id with
  | none => s
  | some m =>
    let m1 := { m with lastAccessedAt := now, accessCount := m.accessCount + 1 }
    { db := s.db.map (fun r => if r.id == id then m1 else r),
      searchIndex := s.searchIndex,
      indexedMemories :=
        if s.indexedMemories.any (fun e => e.1 == id) then
          s.indexedMemories.map (fun e => if e.1 == id then (id, m1) else e)
        else s.indexedMemories }

/-- MemoryStore.invalidate: soft delete.  Sets isValid to 0 and removes
the record from the search index and cache; no-op when not found. -/
def MemoryStore.invalidate (s : StoreState) (id : String) : StoreState :=
  match lookupDb s id with
  | none => s
  | some _ =>
    { db := s.db.map (fun r => if r.id == id then { r with isValid := 0 } else r),
      searchIndex := alErase id s.searchIndex,
      indexedMemories := (s.indexedMemories.filter (fun e => e.1 != id)) }

/-- MemoryStore.delete: hard delete of the record, its index entry and
its cache entry; total (IndexedDB delete succeeds on a missing key). -/
def MemoryStore.delete (s : StoreState) (id : String) : StoreState :=
  { db := s.db.filter (fun r => r.id != id),
    searchIndex := alErase id s.searchIndex,
    indexedMemories := s.indexedMemories.filter (fun e => e.1 != id) }

/-- The partial-update argument of MemoryStore.update. -/
structure UpdateArgs where
  content : Option String := none
  importance : Option Int := none
  category : Option String := none
  isValid : Option Nat := none
deriving DecidableEq, Repr

/-- Apply the provided fields of an update to a record, recomputing
keywords whenever content is provided. -/
def applyUpdates (m : StoredMemory) (u : UpdateArgs) : StoredMemory :=
  let m1 := match u.content with
    | some c => { m with content := c, keywords := extractKeywords c }
    | none => m
  let m2 := match u.importance with
    | some i => { m1 with importance := clampImportance i }
    | none => m1
  let m3 := match u.category with
    | some c => { m2 with category := c }
    | none => m2
  match u.isValid with
  | some v => { m3 with isValid := v }
  | none => m3

/-- MemoryStore.update: applies only provided fields; the search index
entry is replaced only when the content actually changed (removed, and
re-added only when the record ends up valid); the cache entry follows
the final validity; returns null when the id is unknown. -/
def MemoryStore.update (s : StoreState) (id : String) (u : UpdateArgs) :
    Option StoredMemory × StoreState :=
  match lookupDb s id with
  | none => (none, s)
  | some m =>
    let contentChanged := match u.content with
      | some c => c != m.content
      | none => false
    let m1 := applyUpdates m u
    let idx1 :=
      if contentChanged then
        let removed := alErase id s.searchIndex
        if m1.isValid == 1 then removed ++ [(id, m1.content)] else removed
      else s.searchIndex
    (some m1,
      { db := s.db.map (fun r => if r.id == id then m1 else r),
        searchIndex := idx1,
        indexedMemories :=
          if m1.isValid == 1 then alSet id m1 s.indexedMemories
          else s.indexedMemories.filter (fun e => e.1 != id) })

/-- MemoryStore.getCount: the count of the isValid index at key 1. -/
def MemoryStore.getCount (s : StoreState) : Nat :=
  (s.db.filter (fun r => r.isValid == 1)).length

/-- MemoryStore.getById: primary-key get, valid or not. -/
def MemoryStore.getById (s : StoreState) (id : String) : Option StoredMemory :=
  lookupDb s id

/-! ## Memory tools (memory-tools.ts) -/

/-- The structured output envelope of the recall_memory tool.  The
formatted projection of the records is dropped: memories holds the
underlying records the tool returned. -/
structure RecallResult where
  success : Bool
  error : Option String := none
  memories : List StoredMemory := []
  count : Nat := 0
deriving DecidableEq, Repr

/-- recallMemoryTool.execute: missing (empty) query is a structured
failure; a truthy category argument filters that category's records
(getByCategory with internal limit 50) by case-insensitive substring
match of the query, truncated to the limit; otherwise a full search.
recordAccess runs on every returned record.  The category value is not
validated against the enumeration. -/
def recallMemoryExecute (s : StoreState) (query : String) (lim : Nat)
    (category : Option String) (raw : List String) (now : Nat) :
    RecallResult × StoreState :=
  if query == "" then
    ({ success := false, error := some "Missing required parameter: query" }, s)
  else
    let mems : List StoredMemory :=
      match category with
      | some c =>
        if c == "" then
          (MemoryStore.search s query lim raw now).map (·.toStoredMemory)
        else
          let categoryMemories := MemoryStore.getByCategory s c 50
          (categoryMemories.filter
            (fun m => strIncludes (lowerStr m.content) (lowerStr query))).take lim
      | none => (MemoryStore.search s query lim raw now).map (·.toStoredMemory)
    let s1 := mems.foldl (fun st m => MemoryStore.recordAccess st m.id now) s
    ({ success := true, memories := mems, count := mems.length }, s1)

/-- One flagged cleanup candidate: id, human-readable reason, and the
30-character content preview, as pushed into toRemove by the source. -/
structure CleanupItem where
  id : String
  reason : String
  content : String
deriving DecidableEq, Repr

/-- The duplicates normalization: lowercase, strip every character that
is neither CJK nor ASCII alphanumeric, truncate to 50 characters. -/
def normalizeContent (s : String) : String :=
  strTake (String.mk ((lowerStr s).data.filter (fun c => isCJKChar c || isAlnumChar c))) 50

/-- Append a memory to the group of its key, preserving the insertion
order of keys and of group members (JS Map of arrays). -/
def addToGroup (k : String) (m : StoredMemory) :
    List (String × List StoredMemory) → List (String × List StoredMemory)
  | [] => [(k, [m])]
  | (k', g) :: rest =>
    if k' == k then (k', g ++ [m]) :: rest else (k', g) :: addToGroup k m rest

/-- Group the scanned memories by normalized content. -/
def groupByNormalized (ms : List StoredMemory) : List (String × List StoredMemory) :=
  ms.foldl (fun acc m => addToGroup (normalizeContent m.content) m acc) []

/-- Comes-before by importance descending; stable, like the JS sort with
comparator (a, b) => b.importance - a.importance. -/
def beforeByImportanceOnly (a b : StoredMemory) : Bool :=
  b.importance < a.importance

/-- The duplicates pass: within every group of size greater than 1, keep
the highest-importance member and flag the rest. -/
def dupFlags (ms : List StoredMemory) : List CleanupItem :=
  (groupByNormalized ms).foldl (fun acc g =>
    if 1 < g.2.length then
      acc ++ ((sortOrd beforeByImportanceOnly g.2).drop 1).map (fun m =>
        { id := m.id, reason := "重复内容", content := strTake m.content 30 })
    else acc) []

/-- The outdated pass: flags records older than 30 days with fewer than
3 accesses, importance at most 4, and category other than fact,
skipping records already flagged. -/
def outdatedFlags (now : Nat) (ms : List StoredMemory) (acc0 : List CleanupItem) :
    List CleanupItem :=
  ms.foldl (fun acc m =>
    if acc.any (fun r => r.id == m.id) then acc
    else if (m.createdAt : Int) < (now : Int) - 30 * 24 * 60 * 60 * 1000
        && m.accessCount < 3 && m.importance ≤ 4 && m.category != "fact" then
      acc ++ [{ id := m.id, reason := "过时且很少访问", content := strTake m.content 30 }]
    else acc) acc0

/-- The low-importance pass: flags context records with importance at
most 2 and fewer than 2 accesses, skipping records already flagged. -/
def lowImportanceFlags (ms : List StoredMemory) (acc0 : List CleanupItem) :
    List CleanupItem :=
  ms.foldl (fun acc m =>
    if acc.any (fun r => r.id == m.id) then acc
    else if m.importance ≤ 2 && m.accessCount < 2 && m.category == "context" then
      acc ++ [{ id := m.id, reason := "低重要性背景信息", content := strTake m.content 30 }]
    else acc) acc0

/-- The full flagged candidate list of a cleanup run: the strategy
passes applied in order over the 100 most recent valid records. -/
def cleanupFlagged (s : StoreState) (strategy : String) (now : Nat) : List CleanupItem :=
  let allMemories := MemoryStore.getRecent s 100
  let t1 := if strategy == "duplicates" || strategy == "all" then dupFlags allMemories else []
  let t2 := if strategy == "outdated" || strategy == "all" then outdatedFlags now allMemories t1 else t1
  if strategy == "low_importance" || strategy == "all" then lowImportanceFlags allMemories t2 else t2

/-- The structured output envelope of the cleanup_memories tool. -/
structure CleanupResult where
  success : Bool
  removed : Nat
  dryRun : Bool
  details : List CleanupItem
deriving DecidableEq, Repr

/-- cleanupMemoriesTool.execute: computes the flagged list under the
strategy, invalidates every flagged record unless dryRun, and always
reports the full flagged list and count. -/
def cleanupMemoriesExecute (s : StoreState) (strategy : String) (dryRun : Bool)
    (now : Nat) : CleanupResult × StoreState :=
  let toRemove := cleanupFlagged s strategy now
  let s1 :=
    if !dryRun && 0 < toRemove.length then
      toRemove.foldl (fun st item => MemoryStore.invalidate st item.id) s
    else s
  ({ success := true, removed := toRemove.length, dryRun := dryRun, details := toRemove }, s1)

/-! ## Agent orchestrator (agent.ts) -/

/-- Message roles of the conversation history. -/
inductive Role
  | system
  | user
  | assistant
  | tool
deriving DecidableEq, Repr

/-- A raw tool-call request as carried on an assistant message: optional
id, function name, and the (opaque, already parsed) argument payload. -/
structure RawToolCall where
  id : Option String := none
  name : String
  args : String := ""
deriving DecidableEq, Repr

/-- A conversation history entry.  Assistant entries may carry tool-call
requests; tool entries carry the originating tool-call id. -/
structure ChatMessage where
  role : Role
  content : String
  name : Option String := none
  toolCalls : List RawToolCall := []
  toolCallId : Option String := none
deriving DecidableEq, Repr

/-- The count of user and assistant messages in a history. -/
def countConv (l : List ChatMessage) : Nat :=
  (l.filter (fun m => m.role == Role.user || m.role == Role.assistant)).length

/-- The removal loop of trimHistory: walks the non-system tail of the
history, deleting user/assistant messages (each consuming one unit of
budget) and any tool message encountered on the way (consuming none),
skipping interior system messages, and stops the moment the budget is
exhausted. -/
def removeBudget : Nat → List ChatMessage → List ChatMessage
  | 0, l => l
  | _ + 1, [] => []
  | n + 1, m :: rest =>
    match m.role with
    | Role.user => removeBudget n rest
    | Role.assistant => removeBudget n rest
    | Role.tool => removeBudget (n + 1) rest
    | Role.system => m :: removeBudget (n + 1) rest

/-- Agent.trimHistory: counts complete user/assistant exchanges; when
they exceed the configured maximum, removes (turns - max) * 2
conversation messages from the front (after the leading system
messages), together with tool messages encountered before the budget
runs out. -/
def Agent.trimHistory (maxContextMessages : Nat) (history : List ChatMessage) :
    List ChatMessage :=
  let turns := countConv history / 2
  if turns ≤ maxContextMessages then history
  else
    history.takeWhile (fun m => m.role == Role.system) ++
      removeBudget ((turns - maxContextMessages) * 2)
        (history.dropWhile (fun m => m.role == Role.system))

/-- The result a tool's execute body returns. -/
structure ToolResult where
  name : String
  output : String
  message : Option String := none
  toolCallId : Option String := none
deriving DecidableEq, Repr

/-- The tool registry: name to execute body (pure in the embedding). -/
def Registry := List (String × (String → ToolResult))

/-- One normalized model response: textual content plus tool-call
requests (the output of normalizeAssistantMessage). -/
structure ModelResponse where
  content : String
  toolCalls : List RawToolCall
deriving Repr

/-- Agent.executeToolCalls for a single call: an unknown tool name
yields a structured failure result; a registered tool runs and its
result is given the correlating tool-call id (the model's id when
present, a synthesized one otherwise). -/
def executeToolCall (reg : Registry) (genId : String → String) (tc : RawToolCall) :
    ToolResult :=
  let toolCallId := tc.id.getD (genId tc.name)
  match List.lookup tc.name reg with
  | none =>
    { name := tc.name,
      output := "tool not registered",
      message := some ("Tool " ++ tc.name ++ " not registered"),
      toolCallId := some toolCallId }
  | some f =>
    let r := f tc.args
    { name := r.name, output := r.output, message := r.message,
      toolCallId := some (r.toolCallId.getD toolCallId) }

/-- The tool-result history entry appended for one tool result. -/
def toolResultMsg (r : ToolResult) : ChatMessage :=
  { role := Role.tool,
    content := r.message.getD r.output,
    name := some r.name,
    toolCallId := r.toolCallId }

/-- The recursion loop of Agent.run.  fuel is the remaining iteration
budget (maxRecursions minus iterations); the script is the sequence of
model responses the chat endpoint will produce, one consumed per model
call; the result carries the final content, the final history, and the
number of model calls issued.  An exhausted script stands for a
response with no assistant message, the fatal protocol failure. -/
def Agent.runLoop (reg : Registry) (genId : String → String) :
    Nat → List ModelResponse → List ChatMessage →
    Except String (String × List ChatMessage × Nat)
  | 0, _, history => Except.ok ("", history, 0)
  | _ + 1, [], _ => Except.error "OpenRouter response missing assistant message."
  | fuel + 1, resp :: rest, history =>
    if resp.toolCalls.isEmpty then
      if resp.content == "" then Except.ok ("", history, 1)
      else
        Except.ok (resp.content,
          history ++ [{ role := Role.assistant, content := resp.content }], 1)
    else
      let history1 := history ++
        [{ role := Role.assistant, content := resp.content, toolCalls := resp.toolCalls }]
      let results := resp.toolCalls.map (executeToolCall reg genId)
      let history2 := history1 ++ results.map toolResultMsg
      if resp.content == "" then
        match Agent.runLoop reg genId fuel rest history2 with
        | Except.ok (c, h, n) => Except.ok (c, h, n + 1)
        | Except.error e => Except.error e
      else Except.ok (resp.content, history2, 1)

/-- Agent.run: trim the history, append the user turn, run the bounded
loop.  Memory injection and the system prompt assembly touch neither
the history nor the returned content and are not modelled. -/
def Agent.run (reg : Registry) (genId : String → String) (maxContextMessages : Nat)
    (maxRecursions : Nat) (history : List ChatMessage) (userInput : String)
    (script : List ModelResponse) : Except String (String × List ChatMessage × Nat) :=
  Agent.runLoop reg genId maxRecursions script
    (Agent.trimHistory maxContextMessages history ++
      [{ role := Role.user, content := userInput }])

/-! ## General lemmas about the helper functions -/

theorem find?_append_none {p : α → Bool} {l1 : List α} (h : l1.find? p = none)
    (l2 : List α) : (l1 ++ l2).find? p = l2.find? p := by
  induction l1 with
  | nil => rfl
  | cons a t ih =>
    cases hpa : p a with
    | true => simp [List.find?_cons, hpa] at h
    | false =>
      simp only [List.cons_append, List.find?_cons, hpa] at h ⊢
      exact ih h

theorem find?_map_congr (f : α → α) (p : α → Bool) (h : ∀ a, p (f a) = p a) :
    ∀ l : List α, (l.map f).find? p = (l.find? p).map f := by
  intro l
  induction l with
  | nil => rfl
  | cons a t ih =>
    simp only [List.map_cons, List.find?_cons, h a]
    cases p a with
    | true => rfl
    | false => exact ih

theorem filter_idem (p : α → Bool) (l : List α) : (l.filter p).filter p = l.filter p := by
  induction l with
  | nil => rfl
  | cons a t ih =>
    cases hp : p a with
    | true => simp [List.filter_cons, hp, ih]
    | false => simp [List.filter_cons, hp, ih]

theorem mem_insertOrd {b : α → α → Bool} {x y : α} {l : List α} :
    x ∈ insertOrd b y l ↔ x = y ∨ x ∈ l := by
  induction l with
  | nil => simp [insertOrd]
  | cons z t ih =>
    by_cases h : b y z
    · simp [insertOrd, h]
    · simp only [insertOrd, h, if_neg, Bool.not_eq_true, List.mem_cons, ih]
      tauto

theorem mem_foldl_insertOrd {b : α → α → Bool} {x : α} :
    ∀ (l acc : List α),
      (x ∈ l.foldl (fun acc y => insertOrd b y acc) acc ↔ x ∈ acc ∨ x ∈ l) := by
  intro l
  induction l with
  | nil => simp
  | cons a t ih =>
    intro acc
    simp only [List.foldl_cons, ih, mem_insertOrd, List.mem_cons]
    tauto

theorem mem_sortOrd {b : α → α → Bool} {x : α} {l : List α} :
    x ∈ sortOrd b l ↔ x ∈ l := by
  simp [sortOrd, mem_foldl_insertOrd]

theorem length_insertOrd (b : α → α → Bool) (y : α) (l : List α) :
    (insertOrd b y l).length = l.length + 1 := by
  induction l with
  | nil => rfl
  | cons z t ih =>
    by_cases h : b y z <;> simp [insertOrd, h, ih]

theorem length_sortOrd (b : α → α → Bool) (l : List α) :
    (sortOrd b l).length = l.length := by
  suffices h : ∀ (l acc : List α),
      (l.foldl (fun acc y => insertOrd b y acc) acc).length = acc.length + l.length by
    simpa using h l []
  intro l
  induction l with
  | nil => simp
  | cons a t ih =>
    intro acc
    simp only [List.foldl_cons, ih, length_insertOrd, List.length_cons]
    omega

theorem find?_id_of_mem_nodup {db : List StoredMemory} {m : StoredMemory}
    (hm : m ∈ db) (hnd : (db.map (fun r => r.id)).Nodup) :
    db.find? (fun r => r.id == m.id) = some m := by
  induction db with
  | nil => cases hm
  | cons a t ih =>
    simp only [List.map_cons, List.nodup_cons] at hnd
    rcases List.mem_cons.mp hm with rfl | hmt
    · simp [List.find?_cons]
    · have hne : (a.id == m.id) = false := by
        apply beq_eq_false_iff_ne.mpr
        intro hEq
        exact hnd.1 (hEq ▸ List.mem_map_of_mem (fun r => r.id) hmt)
      simp only [List.find?_cons, hne]
      exact ih hmt hnd.2

/-- The explicit form of invalidate when the id is found. -/
theorem invalidate_found_eq (s : StoreState) (id : String) (m : StoredMemory)
    (h : lookupDb s id = some m) :
    MemoryStore.invalidate s id =
      { db := s.db.map (fun r => if r.id == id then { r with isValid := 0 } else r),
        searchIndex := alErase id s.searchIndex,
        indexedMemories := s.indexedMemories.filter (fun e => e.1 != id) } := by
  simp [MemoryStore.invalidate, h]

/-- Setting isValid preserves the id-matching predicate. -/
theorem invalStep_id (id : String) :
    ∀ r : StoredMemory,
      ((if r.id == id then { r with isValid := 0 } else r).id == id) = (r.id == id) := by
  intro r
  by_cases h : r.id = id <;> simp [beq_iff_eq, h]

/-! ## C7: store followed by getById -/

/-- C7: for every valid (content, category, importance) input (and a
fresh id), store followed by getById on the returned identifier yields
a record whose importance is clamped into [1,10], whose content and
category equal the inputs, whose accessCount is 0, and whose validity
flag is valid. -/
theorem store_then_getById (s : StoreState) (content category : String)
    (importance : Int) (now : Nat) (id : String)
    (hfresh : ∀ r ∈ s.db, r.id ≠ id) :
    ∃ m s', MemoryStore.store s content category importance now id = some (m, s')
      ∧ 1 ≤ m.importance ∧ m.importance ≤ 10
      ∧ m.content = content ∧ m.category = category
      ∧ m.accessCount = 0 ∧ m.isValid = 1
      ∧ MemoryStore.getById s' id = some m := by
  have hany : s.db.any (fun r => r.id == id) = false := by
    apply List.any_eq_false.mpr
    intro r hr
    rw [beq_eq_false_iff_ne.mpr (hfresh r hr)]
    simp
  have hnone : s.db.find? (fun r => r.id == id) = none := by
    apply List.find?_eq_none.mpr
    intro r hr
    rw [beq_eq_false_iff_ne.mpr (hfresh r hr)]
    simp
  set mRec : StoredMemory :=
    { id := id, content := content, category := category,
      importance := clampImportance importance,
      keywords := extractKeywords content,
      createdAt := now, lastAccessedAt := now,
      accessCount := 0, isValid := 1 } with hm
  refine ⟨mRec,
    { db := s.db ++ [mRec],
      searchIndex := s.searchIndex ++ [(id, content)],
      indexedMemories := alSet id mRec s.indexedMemories },
    ?_, ?_, ?_, rfl, rfl, rfl, rfl, ?_⟩
  · simp [MemoryStore.store, hany, hm]
  · exact le_max_left 1 (min 10 importance)
  · exact max_le (by norm_num) (min_le_left 10 importance)
  · simp [MemoryStore.getById, lookupDb, find?_append_none hnone, hm]

/-- Witness for C7 at a concrete input (fresh id in the empty store,
importance 15 clamped to 10). -/
theorem store_then_getById_witness :
    ∃ m s', MemoryStore.store emptyStore "hello world" "fact" 15 10 "m1" = some (m, s')
      ∧ 1 ≤ m.importance ∧ m.importance ≤ 10
      ∧ m.content = "hello world" ∧ m.category = "fact"
      ∧ m.accessCount = 0 ∧ m.isValid = 1
      ∧ MemoryStore.getById s' "m1" = some m :=
  store_then_getById emptyStore "hello world" "fact" 15 10 "m1" (by simp [emptyStore])

/-! ## C9: invalidate is idempotent, delete on a missing id is a no-op -/

/-- C9: calling invalidate twice on the same identifier produces the
same end state of the store as calling it once, and calling delete on a
nonexistent identifier (one with no record, index entry or cache entry)
does not raise and leaves the store unchanged. -/
theorem invalidate_idempotent_delete_noop (s : StoreState) (id : String) :
    MemoryStore.invalidate (MemoryStore.invalidate s id) id = MemoryStore.invalidate s id
    ∧ ((lookupDb s id = none ∧ (∀ e ∈ s.searchIndex, e.1 ≠ id)
          ∧ (∀ e ∈ s.indexedMemories, e.1 ≠ id)) →
        MemoryStore.delete s id = s) := by
  constructor
  · cases hfind : lookupDb s id with
    | none =>
      have hs : MemoryStore.invalidate s id = s := by
        simp [MemoryStore.invalidate, hfind]
      rw [hs, hs]
    | some m =>
      have hfind' : s.db.find? (fun r => r.id == id) = some m := hfind
      have hid : (m.id == id) = true := by
        have h := List.find?_some hfind'
        exact h
      have h1 := invalidate_found_eq s id m hfind
      have hfind1 : lookupDb (MemoryStore.invalidate s id) id
          = some { m with isValid := 0 } := by
        rw [h1]
        show List.find? (fun r => r.id == id)
            (s.db.map (fun r => if r.id == id then { r with isValid := 0 } else r))
          = some { m with isValid := 0 }
        rw [find?_map_congr _ _ (invalStep_id id), hfind']
        have hmid : m.id = id := by simpa using hid
        simp [hmid]
      rw [invalidate_found_eq (MemoryStore.invalidate s id) id _ hfind1]
      simp only [h1]
      congr 1
      · rw [List.map_map]
        apply List.map_congr_left
        intro r _
        by_cases h : r.id = id <;> simp [beq_iff_eq, h]
      · simp only [alErase]
        exact filter_idem _ _
      · exact filter_idem _ _
  · rintro ⟨hnone, hidx, hcache⟩
    have hdb : ∀ r ∈ s.db, (r.id != id) = true := by
      intro r hr
      have h := List.find?_eq_none.mp hnone r hr
      simpa using h
    simp only [MemoryStore.delete, alErase]
    have h1 : s.db.filter (fun r => r.id != id) = s.db :=
      List.filter_eq_self.mpr hdb
    have h2 : s.searchIndex.filter (fun e => e.1 != id) = s.searchIndex :=
      List.filter_eq_self.mpr (fun e he => by simpa using hidx e he)
    have h3 : s.indexedMemories.filter (fun e => e.1 != id) = s.indexedMemories :=
      List.filter_eq_self.mpr (fun e he => by simpa using hcache e he)
    rw [h1, h2, h3]

/-- Witness for C9 at a concrete input (the empty store, an id that
does not exist anywhere). -/
theorem invalidate_idempotent_delete_noop_witness :
    MemoryStore.invalidate (MemoryStore.invalidate emptyStore "x") "x"
        = MemoryStore.invalidate emptyStore "x"
    ∧ MemoryStore.delete emptyStore "x" = emptyStore :=
  ⟨(invalidate_idempotent_delete_noop emptyStore "x").1,
   (invalidate_idempotent_delete_noop emptyStore "x").2
     ⟨rfl, by simp [emptyStore], by simp [emptyStore]⟩⟩

/-! ## C6: the duplicates cleanup scenario -/

/-- The store after the first record of scenario A ("喜欢猫", importance 5). -/
def c6s1 : StoreState :=
  ((MemoryStore.store emptyStore "喜欢猫" "preference" 5 1000 "m1").map Prod.snd).getD emptyStore

/-- The store after the second record of scenario A ("喜欢猫!", importance 9). -/
def c6s2 : StoreState :=
  ((MemoryStore.store c6s1 "喜欢猫!" "preference" 9 2000 "m2").map Prod.snd).getD c6s1

/-- The store after the third record of scenario A ("喜欢猫 ", importance 3). -/
def c6s3 : StoreState :=
  ((MemoryStore.store c6s2 "喜欢猫 " "preference" 3 3000 "m3").map Prod.snd).getD c6s2

/-- C6: after storing three records whose contents normalize identically
("喜欢猫", "喜欢猫!", "喜欢猫 ") at importances 5, 9 and 3, cleanup_memories
with strategy duplicates and dryRun = false flags and invalidates exactly
the two lower-importance records; the importance-9 record remains valid. -/
theorem cleanup_duplicates_scenario :
    (cleanupMemoriesExecute c6s3 "duplicates" false 4000).1.removed = 2
    ∧ ((cleanupMemoriesExecute c6s3 "duplicates" false 4000).1.details.map
        (fun it => it.id)) = ["m1", "m3"]
    ∧ ((lookupDb (cleanupMemoriesExecute c6s3 "duplicates" false 4000).2 "m1").map
        (fun r => r.isValid)) = some 0
    ∧ ((lookupDb (cleanupMemoriesExecute c6s3 "duplicates" false 4000).2 "m3").map
        (fun r => r.isValid)) = some 0
    ∧ ((lookupDb (cleanupMemoriesExecute c6s3 "duplicates" false 4000).2 "m2").map
        (fun r => r.isValid)) = some 1 := by
  decide

/-! ## C1: recall_memory with an unknown category -/

/-- A one-record store used as the concrete C1 input. -/
def c1State : StoreState :=
  ((MemoryStore.store emptyStore "hello world" "fact" 5 10 "m1").map Prod.snd).getD emptyStore

/-- Counterexample to C1: recall_memory invoked with the out-of-enumeration
category value "opinion" is not rejected by tool-level validation: the call
returns a success envelope (success = true, no error) after consulting the
store's category index, instead of a structured validation failure. -/
theorem recall_unknown_category_not_rejected :
    ("opinion" ∈ validCategories → False)
    ∧ (recallMemoryExecute c1State "hello" 5 (some "opinion") [] 10).1.success = true
    ∧ (recallMemoryExecute c1State "hello" 5 (some "opinion") [] 10).1.error = none
    ∧ (recallMemoryExecute c1State "hello" 5 (some "opinion") [] 10).2 = c1State := by
  decide

/-- C1 (amended): recall_memory does not validate the category argument.
With a nonempty query and an unknown nonempty category value, the call
reaches the store's getByCategory, which matches no record when every
stored record carries a category of the closed enumeration, so the tool
returns a success envelope with an empty memory list and a count of 0 and
leaves the store unchanged. -/
theorem recall_unknown_category_success_empty (s : StoreState) (q c : String)
    (lim : Nat) (raw : List String) (now : Nat)
    (hq : q ≠ "") (hc : c ∉ validCategories) (hc0 : c ≠ "")
    (hdb : ∀ m ∈ s.db, m.category ∈ validCategories) :
    recallMemoryExecute s q lim (some c) raw now =
      ({ success := true, memories := [], count := 0 }, s) := by
  have hq' : (q == "") = false := beq_eq_false_iff_ne.mpr hq
  have hc0' : (c == "") = false := beq_eq_false_iff_ne.mpr hc0
  have hcat : s.db.filter (fun r => r.category == c) = [] := by
    apply List.filter_eq_nil_iff.mpr
    intro r hr
    intro hEq
    exact hc (beq_iff_eq.mp hEq ▸ hdb r hr)
  simp [recallMemoryExecute, hq', hc0', MemoryStore.getByCategory, hcat, sortOrd]

/-- Witness for the amended C1 at a concrete input. -/
theorem recall_unknown_category_success_empty_witness :
    recallMemoryExecute c1State "hello" 5 (some "opinion") [] 10 =
      ({ success := true, memories := [], count := 0 }, c1State) :=
  recall_unknown_category_success_empty c1State "hello" "opinion" 5 [] 10
    (by decide) (by decide) (by decide) (by decide)

/-! ## C4: run with maxRecursions = 1 and a tool-calls-only response -/

/-- C4: with maxRecursions = 1 and a model response carrying only
tool-call requests for a registered tool and empty content, run returns
content = "" after appending the assistant tool-call entry and the
corresponding tool-result entry to the history, and exactly one model
call was issued; the tool result comes from the registered execute body. -/
theorem run_toolcalls_only_returns_empty (reg : Registry) (genId : String → String)
    (maxCtx : Nat) (history : List ChatMessage) (userInput : String)
    (tc : RawToolCall) (f : String → ToolResult)
    (hreg : List.lookup tc.name reg = some f) :
    Agent.run reg genId maxCtx 1 history userInput [{ content := "", toolCalls := [tc] }] =
      Except.ok ("",
        Agent.trimHistory maxCtx history ++
          [{ role := Role.user, content := userInput },
           { role := Role.assistant, content := "", toolCalls := [tc] },
           toolResultMsg (executeToolCall reg genId tc)], 1)
    ∧ executeToolCall reg genId tc =
        { name := (f tc.args).name, output := (f tc.args).output,
          message := (f tc.args).message,
          toolCallId := some ((f tc.args).toolCallId.getD (tc.id.getD (genId tc.name))) } := by
  constructor
  · simp [Agent.run, Agent.runLoop, List.append_assoc]
  · simp [executeToolCall, hreg]

/-- Witness for C4 at a concrete registry and tool call. -/
theorem run_toolcalls_only_returns_empty_witness :
    Agent.run [("echo", fun a => { name := "echo", output := a })]
        (fun n => n ++ "_gen") 20 1 [] "hi"
        [{ content := "", toolCalls := [{ id := some "c1", name := "echo", args := "x" }] }] =
      Except.ok ("",
        Agent.trimHistory 20 [] ++
          [{ role := Role.user, content := "hi" },
           { role := Role.assistant, content := "",
             toolCalls := [{ id := some "c1", name := "echo", args := "x" }] },
           toolResultMsg (executeToolCall [("echo", fun a => { name := "echo", output := a })]
             (fun n => n ++ "_gen") { id := some "c1", name := "echo", args := "x" })], 1) :=
  (run_toolcalls_only_returns_empty
    [("echo", fun a => { name := "echo", output := a })] (fun n => n ++ "_gen") 20 []
    "hi" { id := some "c1", name := "echo", args := "x" }
    (fun a => { name := "echo", output := a }) (by simp [List.lookup])).1

/-! ## C2: history trimming over complete exchanges -/

/-- The tool-result message of one recorded tool note (call id, content). -/
def toolNoteMsg (p : String × String) : ChatMessage :=
  { role := Role.tool, content := p.2, toolCallId := some p.1 }

/-- One complete user/assistant exchange: the user turn, the assistant
turn (possibly carrying tool calls), and the tool messages that follow it. -/
structure ExchangeRec where
  userText : String
  asstText : String
  calls : List RawToolCall := []
  toolNotes : List (String × String) := []
deriving Repr

/-- The history entries of one exchange. -/
def ExchangeRec.msgs (e : ExchangeRec) : List ChatMessage :=
  { role := Role.user, content := e.userText } ::
  { role := Role.assistant, content := e.asstText, toolCalls := e.calls } ::
  e.toolNotes.map toolNoteMsg

/-- The flattened history of a list of exchanges. -/
def exchangesMsgs : List ExchangeRec → List ChatMessage
  | [] => []
  | e :: es => e.msgs ++ exchangesMsgs es

/-- A history of a leading system message followed by exchanges. -/
def historyOf (sys : String) (es : List ExchangeRec) : List ChatMessage :=
  { role := Role.system, content := sys } :: exchangesMsgs es

/-- A tool message is orphaned in a history when no assistant message of
that history carries its originating tool-call id. -/
def orphanTool (l : List ChatMessage) (m : ChatMessage) : Bool :=
  m.role == Role.tool &&
    (match m.toolCallId with
     | some c => !(l.any (fun a => a.role == Role.assistant
                    && a.toolCalls.any (fun r => r.id == some c)))
     | none => false)

/-- Whether some tool message of the history is orphaned. -/
def hasOrphanTool (l : List ChatMessage) : Bool :=
  l.any (fun m => orphanTool l m)

theorem countConv_append (l1 l2 : List ChatMessage) :
    countConv (l1 ++ l2) = countConv l1 + countConv l2 := by
  simp [countConv, List.filter_append]

theorem countConv_toolNotes (notes : List (String × String)) :
    countConv (notes.map toolNoteMsg) = 0 := by
  induction notes with
  | nil => rfl
  | cons p t ih =>
    simpa [countConv, toolNoteMsg, List.filter_cons] using ih

theorem countConv_msgs (e : ExchangeRec) : countConv e.msgs = 2 := by
  have h := countConv_toolNotes e.toolNotes
  simp only [countConv] at h
  simp [ExchangeRec.msgs, countConv, List.filter_cons, h]

theorem countConv_exchanges (es : List ExchangeRec) :
    countConv (exchangesMsgs es) = 2 * es.length := by
  induction es with
  | nil => rfl
  | cons e t ih =>
    simp only [exchangesMsgs, countConv_append, countConv_msgs, ih, List.length_cons]
    omega

theorem removeBudget_toolNotes (notes : List (String × String)) (n : Nat)
    (l : List ChatMessage) :
    removeBudget (n + 1) (notes.map toolNoteMsg ++ l) = removeBudget (n + 1) l := by
  induction notes with
  | nil => rfl
  | cons p t ih => exact ih

theorem removeBudget_exchanges (e : ExchangeRec) (es2 : List ExchangeRec) :
    ∀ es1 : List ExchangeRec,
      removeBudget (2 * es1.length + 2) (exchangesMsgs (es1 ++ e :: es2)) =
        e.toolNotes.map toolNoteMsg ++ exchangesMsgs es2 := by
  intro es1
  induction es1 with
  | nil => simp [removeBudget, exchangesMsgs, ExchangeRec.msgs]
  | cons a t ih =>
    show removeBudget ((2 * t.length + 1) + 1)
        (a.toolNotes.map toolNoteMsg ++ exchangesMsgs (t ++ e :: es2)) = _
    rw [removeBudget_toolNotes]
    exact ih

theorem exchangesMsgs_sysSplit (es : List ExchangeRec) :
    (exchangesMsgs es).takeWhile (fun m => m.role == Role.system) = []
    ∧ (exchangesMsgs es).dropWhile (fun m => m.role == Role.system) = exchangesMsgs es := by
  cases es with
  | nil => exact ⟨rfl, rfl⟩
  | cons a t =>
    constructor
    · simp [exchangesMsgs, ExchangeRec.msgs]
    · simp [exchangesMsgs, ExchangeRec.msgs]

theorem historyOf_sysSplit (sys : String) (es : List ExchangeRec) :
    (historyOf sys es).takeWhile (fun m => m.role == Role.system)
      = [{ role := Role.system, content := sys }]
    ∧ (historyOf sys es).dropWhile (fun m => m.role == Role.system) = exchangesMsgs es := by
  constructor
  · show ({ role := Role.system, content := sys } :: exchangesMsgs es).takeWhile _ = _
    rw [List.takeWhile_cons_of_pos (by rfl), (exchangesMsgs_sysSplit es).1]
  · show ({ role := Role.system, content := sys } :: exchangesMsgs es).dropWhile _ = _
    rw [List.dropWhile_cons_of_pos (by rfl), (exchangesMsgs_sysSplit es).2]

/-- C2 (amended): with maxContextMessages = N and a history of a leading
system message plus more than N complete exchanges (tool messages
attached to their assistant turns), trimming keeps the system message
and exactly the newest N exchanges, removing the oldest exchanges
first; the tool messages of every removed exchange are removed too,
except those of the most recent removed exchange, which survive
(orphaned) right after the system message. -/
theorem trimHistory_trims_exchanges (sys : String) (es1 : List ExchangeRec)
    (e : ExchangeRec) (es2 : List ExchangeRec) :
    Agent.trimHistory es2.length (historyOf sys (es1 ++ e :: es2)) =
      { role := Role.system, content := sys } ::
        (e.toolNotes.map toolNoteMsg ++ exchangesMsgs es2) := by
  have hcount : countConv (historyOf sys (es1 ++ e :: es2))
      = 2 * (es1.length + 1 + es2.length) := by
    have h1 := countConv_exchanges (es1 ++ e :: es2)
    have h2 : countConv (historyOf sys (es1 ++ e :: es2))
        = countConv (exchangesMsgs (es1 ++ e :: es2)) := by
      simp [historyOf, countConv, List.filter_cons]
    rw [h2, h1]
    simp only [List.length_append, List.length_cons]
    omega
  have hsplit := historyOf_sysSplit sys (es1 ++ e :: es2)
  simp only [Agent.trimHistory, hcount]
  rw [Nat.mul_div_cancel_left _ (by norm_num : 0 < 2)]
  rw [if_neg (by omega)]
  rw [hsplit.1, hsplit.2]
  rw [show es1.length + 1 + es2.length - es2.length = es1.length + 1 by omega]
  rw [show (es1.length + 1) * 2 = 2 * es1.length + 2 by ring]
  rw [removeBudget_exchanges e es2 es1]
  rfl

/-- The concrete C2 history: a system message, an exchange whose
assistant turn called tool "t" (call id c1) with its tool result, and a
second plain exchange. -/
def c2History : List ChatMessage :=
  historyOf "persona"
    [ { userText := "u1", asstText := "", calls := [{ id := some "c1", name := "t" }],
        toolNotes := [("c1", "r1")] },
      { userText := "u2", asstText := "a2" } ]

/-- Counterexample to C2: trimming this 2-exchange history to 1 exchange
keeps the system message and the newest exchange, but the tool result
of the removed assistant tool-call message survives as an orphan (the
untrimmed history has no orphan). -/
theorem trimHistory_orphan_tool :
    countConv c2History / 2 = 2
    ∧ Agent.trimHistory 1 c2History =
        [{ role := Role.system, content := "persona" },
         { role := Role.tool, content := "r1", toolCallId := some "c1" },
         { role := Role.user, content := "u2" },
         { role := Role.assistant, content := "a2" }]
    ∧ hasOrphanTool (Agent.trimHistory 1 c2History) = true
    ∧ hasOrphanTool c2History = false := by
  decide

/-! ## C3: invalidated records are excluded everywhere except getById -/

theorem snd_mem_of_mem_enumFrom {l : List α} :
    ∀ {n : Nat} {p : Nat × α}, p ∈ l.enumFrom n → p.2 ∈ l := by
  induction l with
  | nil => intro n p h; cases h
  | cons a t ih =>
    intro n p h
    rcases List.mem_cons.mp h with rfl | h2
    · exact List.mem_cons_self a t
    · exact List.mem_cons_of_mem a (ih h2)

theorem alGet_mem {l : List (String × α)} {k : String} {v : α}
    (h : alGet l k = some v) : ∃ e ∈ l, e.1 = k ∧ e.2 = v := by
  unfold alGet at h
  cases hf : l.find? (fun e => e.1 == k) with
  | none => rw [hf] at h; cases h
  | some e =>
    rw [hf] at h
    refine ⟨e, List.mem_of_find?_eq_some hf, ?_, ?_⟩
    · have h2 := List.find?_some hf
      exact beq_iff_eq.mp h2
    · simpa using h

/-- Every search hit is a valid cache entry keyed by some raw engine id. -/
theorem mem_search_cache {s : StoreState} {q : String} {lim : Nat}
    {raw : List String} {now : Nat} {r : MemorySearchResult}
    (h : r ∈ MemoryStore.search s q lim raw now) :
    r.toStoredMemory.isValid = 1
    ∧ ∃ key ∈ raw, alGet s.indexedMemories key = some r.toStoredMemory := by
  unfold MemoryStore.search at h
  by_cases hq : (q.trim == "") = true
  · simp [hq] at h
  · rw [if_neg hq] at h
    have h1 : r ∈ raw.enum.filterMap (fun p =>
        match alGet s.indexedMemories p.2 with
        | none => none
        | some mem =>
          if mem.isValid == 1 then
            some ⟨mem, relevanceOf mem p.1 (lowerStr q) now⟩
          else none) := mem_sortOrd.mp (List.take_subset _ _ h)
    obtain ⟨p, hp, hfp⟩ := List.mem_filterMap.mp h1
    cases hget : alGet s.indexedMemories p.2 with
    | none => simp [hget] at hfp
    | some mem =>
      simp only [hget] at hfp
      by_cases hval : (mem.isValid == 1) = true
      · rw [if_pos hval] at hfp
        have hrm : r.toStoredMemory = mem := by
          have h2 := Option.some.inj hfp
          rw [← h2]
        constructor
        · rw [hrm]; exact beq_iff_eq.mp hval
        · refine ⟨p.2, ?_, ?_⟩
          · exact snd_mem_of_mem_enumFrom (l := raw) (n := 0) hp
          · rw [hrm]; exact hget
      · rw [if_neg hval] at hfp; cases hfp

theorem mem_getByCategory {s : StoreState} {c : String} {lim : Nat} {r : StoredMemory}
    (h : r ∈ MemoryStore.getByCategory s c lim) :
    r ∈ s.db ∧ r.isValid = 1 ∧ r.category = c := by
  unfold MemoryStore.getByCategory at h
  have h1 := List.mem_filter.mp (List.take_subset _ _ h)
  have h2 := List.mem_filter.mp (mem_sortOrd.mp h1.1)
  exact ⟨h2.1, beq_iff_eq.mp h1.2, beq_iff_eq.mp h2.2⟩

theorem mem_getMostImportant {s : StoreState} {lim : Nat} {r : StoredMemory}
    (h : r ∈ MemoryStore.getMostImportant s lim) : r ∈ s.db ∧ r.isValid = 1 := by
  unfold MemoryStore.getMostImportant at h
  have h1 := List.mem_filter.mp (List.take_subset _ _ h)
  exact ⟨mem_sortOrd.mp h1.1, beq_iff_eq.mp h1.2⟩

theorem mem_getRecent {s : StoreState} {lim : Nat} {r : StoredMemory}
    (h : r ∈ MemoryStore.getRecent s lim) : r ∈ s.db ∧ r.isValid = 1 := by
  unfold MemoryStore.getRecent at h
  have h1 := List.mem_filter.mp (List.take_subset _ _ h)
  exact ⟨mem_sortOrd.mp h1.1, beq_iff_eq.mp h1.2⟩

/-- A valid member of the invalidated record table cannot carry the
invalidated id. -/
theorem mem_invalidated_db {db : List StoredMemory} {id : String} {r : StoredMemory}
    (hr : r ∈ db.map (fun x => if x.id == id then { x with isValid := 0 } else x))
    (hval : r.isValid = 1) : r.id ≠ id := by
  obtain ⟨r0, hr0, heq⟩ := List.mem_map.mp hr
  by_cases h : r0.id = id
  · rw [if_pos (beq_iff_eq.mpr h)] at heq
    rw [← heq] at hval
    cases hval
  · rw [if_neg (by simpa [beq_iff_eq] using h)] at heq
    rw [← heq]
    exact h

/-- lookupDb after invalidate returns the soft-deleted record. -/
theorem lookupDb_invalidate (s : StoreState) (id : String) (m : StoredMemory)
    (hfound : lookupDb s id = some m) :
    lookupDb (MemoryStore.invalidate s id) id = some { m with isValid := 0 } := by
  have hfind' : s.db.find? (fun r => r.id == id) = some m := hfound
  have hid : (m.id == id) = true := by
    have h := List.find?_some hfind'
    exact h
  rw [invalidate_found_eq s id m hfound]
  show List.find? (fun r => r.id == id)
      (s.db.map (fun r => if r.id == id then { r with isValid := 0 } else r))
    = some { m with isValid := 0 }
  rw [find?_map_congr _ _ (invalStep_id id), hfind']
  have hmid : m.id = id := by simpa using hid
  simp [hmid]

/-- C3: once a record is invalidated it never appears in the results of
search (for any engine output), getByCategory, getMostImportant or
getRecent, it is not counted by getCount, but it is still returned by
getById, until delete removes it for good. -/
theorem invalidate_excludes_record (s : StoreState) (id : String) (m : StoredMemory)
    (hfound : lookupDb s id = some m)
    (hck : ∀ e ∈ s.indexedMemories, e.2.id = e.1) :
    (∀ q lim raw now r, r ∈ MemoryStore.search (MemoryStore.invalidate s id) q lim raw now →
        r.toStoredMemory.id ≠ id)
    ∧ (∀ c lim r, r ∈ MemoryStore.getByCategory (MemoryStore.invalidate s id) c lim →
        r.id ≠ id)
    ∧ (∀ lim r, r ∈ MemoryStore.getMostImportant (MemoryStore.invalidate s id) lim →
        r.id ≠ id)
    ∧ (∀ lim r, r ∈ MemoryStore.getRecent (MemoryStore.invalidate s id) lim →
        r.id ≠ id)
    ∧ MemoryStore.getCount (MemoryStore.invalidate s id)
        = (s.db.filter (fun r => r.isValid == 1 && r.id != id)).length
    ∧ MemoryStore.getById (MemoryStore.invalidate s id) id = some { m with isValid := 0 }
    ∧ MemoryStore.getById (MemoryStore.delete (MemoryStore.invalidate s id) id) id = none := by
  have hEq := invalidate_found_eq s id m hfound
  refine ⟨?_, ?_, ?_, ?_, ?_, ?_, ?_⟩
  · intro q lim raw now r hr
    obtain ⟨hval, key, hkey, hget⟩ := mem_search_cache hr
    obtain ⟨e, he, hek, hev⟩ := alGet_mem hget
    rw [hEq] at he
    have he2 := List.mem_filter.mp he
    have hne : e.1 ≠ id := by simpa using he2.2
    have hid : r.toStoredMemory.id = e.1 := by
      rw [← hev]
      exact hck e he2.1
    rw [hid]
    exact hne
  · intro c lim r hr
    have h1 := mem_getByCategory hr
    rw [hEq] at h1
    exact mem_invalidated_db h1.1 h1.2.1
  · intro lim r hr
    have h1 := mem_getMostImportant hr
    rw [hEq] at h1
    exact mem_invalidated_db h1.1 h1.2
  · intro lim r hr
    have h1 := mem_getRecent hr
    rw [hEq] at h1
    exact mem_invalidated_db h1.1 h1.2
  · rw [hEq]
    show ((s.db.map (fun r => if r.id == id then { r with isValid := 0 } else r)).filter
        (fun r => r.isValid == 1)).length = _
    rw [List.filter_map]
    rw [List.length_map]
    congr 1
    apply List.filter_congr
    intro r _
    by_cases h : r.id = id
    · simp [Function.comp, beq_iff_eq, h]
    · simp [Function.comp, beq_iff_eq, h]
  · exact lookupDb_invalidate s id m hfound
  · show lookupDb _ _ = none
    unfold lookupDb MemoryStore.delete
    apply List.find?_eq_none.mpr
    intro r hr
    have h1 := List.mem_filter.mp hr
    have : r.id ≠ id := by simpa using h1.2
    simpa [beq_iff_eq] using this

/-- Witness for C3 at a concrete one-record store. -/
def c1Record : StoredMemory :=
  { id := "m1", content := "hello world", category := "fact",
    importance := clampImportance 5, keywords := extractKeywords "hello world",
    createdAt := 10, lastAccessedAt := 10, accessCount := 0, isValid := 1 }

theorem invalidate_excludes_record_witness :
    MemoryStore.getById (MemoryStore.invalidate c1State "m1") "m1"
        = some { c1Record with isValid := 0 }
    ∧ MemoryStore.getById
        (MemoryStore.delete (MemoryStore.invalidate c1State "m1") "m1") "m1" = none :=
  ⟨(invalidate_excludes_record c1State "m1" c1Record (by decide) (by decide)).2.2.2.2.2.1,
   (invalidate_excludes_record c1State "m1" c1Record (by decide) (by decide)).2.2.2.2.2.2⟩

/-! ## C8: update frame conditions and index replacement -/

/-- C8: update with only importance provided leaves content and derived
keywords unchanged; update with content provided always recomputes the
keywords from the new content and, on a valid record, leaves exactly
one search index entry for the id, holding the new content; update on
an unknown identifier returns null and changes nothing. -/
theorem update_keywords_and_index (s : StoreState) (id : String) (m : StoredMemory)
    (hfound : lookupDb s id = some m) :
    (∀ v, (MemoryStore.update s id { importance := some v }).1
        = some { m with importance := clampImportance v })
    ∧ (∀ c, ((MemoryStore.update s id { content := some c }).1).map (fun r => r.keywords)
        = some (extractKeywords c))
    ∧ (∀ c, m.isValid = 1 →
        s.searchIndex.filter (fun e => e.1 == id) = [(id, m.content)] →
        ((MemoryStore.update s id { content := some c }).2.searchIndex.filter
          (fun e => e.1 == id)) = [(id, c)])
    ∧ (∀ id' u, lookupDb s id' = none → MemoryStore.update s id' u = (none, s)) := by
  refine ⟨?_, ?_, ?_, ?_⟩
  · intro v
    simp [MemoryStore.update, hfound, applyUpdates]
  · intro c
    simp [MemoryStore.update, hfound, applyUpdates]
  · intro c hval hidx
    by_cases hc : c = m.content
    · have hcc : (c != m.content) = false := by simp [hc]
      have hix : (MemoryStore.update s id { content := some c }).2.searchIndex
          = s.searchIndex := by
        simp [MemoryStore.update, hfound, hcc]
      rw [hix, hidx, hc]
    · have hcc : (c != m.content) = true := by simp [bne_iff_ne]; exact hc
      have hix : (MemoryStore.update s id { content := some c }).2.searchIndex
          = alErase id s.searchIndex ++ [(id, c)] := by
        simp [MemoryStore.update, hfound, hcc, applyUpdates, hval]
      rw [hix, List.filter_append]
      have h1 : (alErase id s.searchIndex).filter (fun e => e.1 == id) = [] := by
        apply List.filter_eq_nil_iff.mpr
        intro e he
        have h2 := (List.mem_filter.mp he).2
        have h3 : e.1 ≠ id := by simpa using h2
        simpa [beq_iff_eq] using h3
      rw [h1]
      simp
  · intro id' u h
    simp [MemoryStore.update, h]

/-- Witness for C8 at the concrete one-record store. -/
theorem update_keywords_and_index_witness :
    (MemoryStore.update c1State "m1" { importance := some 9 }).1
        = some { c1Record with importance := clampImportance 9 }
    ∧ ((MemoryStore.update c1State "m1" { content := some "likes cats" }).1).map
        (fun r => r.keywords) = some (extractKeywords "likes cats")
    ∧ ((MemoryStore.update c1State "m1" { content := some "likes cats" }).2.searchIndex.filter
        (fun e => e.1 == "m1")) = [("m1", "likes cats")]
    ∧ MemoryStore.update c1State "zzz" { importance := some 2 } = (none, c1State) :=
  ⟨(update_keywords_and_index c1State "m1" c1Record (by decide)).1 9,
   (update_keywords_and_index c1State "m1" c1Record (by decide)).2.1 "likes cats",
   (update_keywords_and_index c1State "m1" c1Record (by decide)).2.2.1 "likes cats"
     (by decide) (by decide),
   (update_keywords_and_index c1State "m1" c1Record (by decide)).2.2.2 "zzz" _ (by decide)⟩

/-! ## C10: a record revalidated by update is counted but never searchable -/

theorem mem_alSet {l : List (String × α)} {k : String} {v : α} {e : String × α}
    (h : e ∈ alSet k v l) : e = (k, v) ∨ e ∈ l := by
  unfold alSet at h
  by_cases ha : l.any (fun e => e.1 == k) = true
  · rw [if_pos ha] at h
    obtain ⟨e0, he0, heq⟩ := List.mem_map.mp h
    by_cases h0 : (e0.1 == k) = true
    · rw [if_pos h0] at heq
      exact Or.inl heq.symm
    · rw [if_neg h0] at heq
      exact Or.inr (heq ▸ he0)
  · rw [if_neg ha] at h
    rcases List.mem_append.mp h with h1 | h1
    · exact Or.inr h1
    · exact Or.inl (List.mem_singleton.mp h1)

theorem mem_take_all {l : List α} {n : Nat} {x : α} (hx : x ∈ l) (hn : l.length ≤ n) :
    x ∈ l.take n := by
  rw [List.take_of_length_le hn]
  exact hx

/-- Counting a validity-filtered record table when one specific record
flips from excluded to included. -/
theorem length_filter_revalidate (id : String) :
    ∀ db : List StoredMemory, (db.map (fun r => r.id)).Nodup →
      (∃ mm ∈ db, mm.id = id) →
      (db.filter (fun r => r.id == id || r.isValid == 1)).length
        = (db.filter (fun r => r.id != id && r.isValid == 1)).length + 1 := by
  intro db
  induction db with
  | nil => rintro _ ⟨mm, hmm, _⟩; cases hmm
  | cons a t ih =>
    rintro hnd ⟨mm, hmm, hmmid⟩
    simp only [List.map_cons, List.nodup_cons] at hnd
    by_cases ha : a.id = id
    · have hfa : ∀ r ∈ t, r.id ≠ id := by
        intro r hr hrid
        exact hnd.1 ((ha.trans hrid.symm) ▸ List.mem_map_of_mem (fun x => x.id) hr)
      have hcongr : t.filter (fun r => r.id == id || r.isValid == 1)
          = t.filter (fun r => r.id != id && r.isValid == 1) := by
        apply List.filter_congr
        intro r hr
        have h1 : (r.id == id) = false := by simpa [beq_iff_eq] using hfa r hr
        have h2 : (r.id != id) = true := by
          simp only [bne_iff_ne]
          exact hfa r hr
        simp [h1, h2]
      have hpa1 : (a.id == id || a.isValid == 1) = true := by simp [beq_iff_eq, ha]
      have hpa2 : (a.id != id && a.isValid == 1) = false := by
        have : (a.id != id) = false := by simp [bne_iff_ne, ha]
        simp [this]
      rw [List.filter_cons, List.filter_cons, if_pos hpa1, if_neg (by simp [hpa2])]
      rw [List.length_cons, hcongr]
    · have hmm' : mm ∈ t := by
        rcases List.mem_cons.mp hmm with rfl | h
        · exact absurd hmmid ha
        · exact h
      have hrec := ih hnd.2 ⟨mm, hmm', hmmid⟩
      have hpa : (a.id == id) = false := by simpa [beq_iff_eq] using ha
      have hpa' : (a.id != id) = true := by simp [bne_iff_ne, ha]
      rw [List.filter_cons, List.filter_cons]
      by_cases hv : (a.isValid == 1) = true
      · rw [if_pos (by simp [hpa, hv]), if_pos (by simp [hpa', hv])]
        simp only [List.length_cons]
        omega
      · have hv' : (a.isValid == 1) = false := by simpa using hv
        rw [if_neg (by simp [hpa, hv']), if_neg (by simp [hpa', hv'])]
        exact hrec

/-- C10: after invalidate followed by update(id, isValid := 1) with no
content change, the record counts as valid again for getById, getCount,
getByCategory, getMostImportant and getRecent, but its id is absent
from the full-text index, so search (whose engine only returns indexed
ids) never returns it for any query. -/
theorem revalidated_record_not_searchable (s : StoreState) (id : String) (m : StoredMemory)
    (hfound : lookupDb s id = some m)
    (hnd : (s.db.map (fun r => r.id)).Nodup)
    (hck : ∀ e ∈ s.indexedMemories, e.2.id = e.1) :
    (MemoryStore.update (MemoryStore.invalidate s id) id { isValid := some 1 }).1
        = some { m with isValid := 1 }
    ∧ (let s2 := (MemoryStore.update (MemoryStore.invalidate s id) id { isValid := some 1 }).2
       MemoryStore.getById s2 id = some { m with isValid := 1 }
       ∧ MemoryStore.getCount s2 = MemoryStore.getCount (MemoryStore.invalidate s id) + 1
       ∧ { m with isValid := 1 } ∈ MemoryStore.getByCategory s2 m.category s2.db.length
       ∧ { m with isValid := 1 } ∈ MemoryStore.getMostImportant s2 s2.db.length
       ∧ { m with isValid := 1 } ∈ MemoryStore.getRecent s2 s2.db.length
       ∧ (∀ e ∈ s2.searchIndex, e.1 ≠ id)
       ∧ (∀ q lim raw now, (∀ x ∈ raw, ∃ e ∈ s2.searchIndex, e.1 = x) →
           ∀ r ∈ MemoryStore.search s2 q lim raw now, r.toStoredMemory.id ≠ id)) := by
  have hfound' : s.db.find? (fun r => r.id == id) = some m := hfound
  have hmid : m.id = id := by
    have h := List.find?_some hfound'
    simpa using h
  have hm_mem : m ∈ s.db := List.mem_of_find?_eq_some hfound'
  have hEq1 := invalidate_found_eq s id m hfound
  have hl1 := lookupDb_invalidate s id m hfound
  have hdb1 : (MemoryStore.invalidate s id).db
      = s.db.map (fun r => if r.id == id then { r with isValid := 0 } else r) := by
    rw [hEq1]
  have hix1 : (MemoryStore.invalidate s id).searchIndex = alErase id s.searchIndex := by
    rw [hEq1]
  have hcache1 : (MemoryStore.invalidate s id).indexedMemories
      = s.indexedMemories.filter (fun e => e.1 != id) := by
    rw [hEq1]
  have hupd : MemoryStore.update (MemoryStore.invalidate s id) id { isValid := some 1 }
      = (some { m with isValid := 1 },
         { db := (MemoryStore.invalidate s id).db.map
             (fun r => if r.id == id then { m with isValid := 1 } else r),
           searchIndex := (MemoryStore.invalidate s id).searchIndex,
           indexedMemories := alSet id { m with isValid := 1 }
             (MemoryStore.invalidate s id).indexedMemories }) := by
    simp [MemoryStore.update, hl1, applyUpdates]
  have hs2 : (MemoryStore.update (MemoryStore.invalidate s id) id { isValid := some 1 }).2
      = { db := (MemoryStore.invalidate s id).db.map
            (fun r => if r.id == id then { m with isValid := 1 } else r),
          searchIndex := (MemoryStore.invalidate s id).searchIndex,
          indexedMemories := alSet id { m with isValid := 1 }
            (MemoryStore.invalidate s id).indexedMemories } := by
    rw [hupd]
  have hg : ∀ r : StoredMemory,
      ((if r.id == id then { m with isValid := 1 } else r).id == id) = (r.id == id) := by
    intro r
    by_cases h : r.id = id
    · simp [beq_iff_eq, h, hmid]
    · simp [beq_iff_eq, h]
  have hgetById : MemoryStore.getById
      (MemoryStore.update (MemoryStore.invalidate s id) id { isValid := some 1 }).2 id
      = some { m with isValid := 1 } := by
    rw [hs2]
    show List.find? (fun r => r.id == id)
        ((MemoryStore.invalidate s id).db.map
          (fun r => if r.id == id then { m with isValid := 1 } else r))
      = some { m with isValid := 1 }
    rw [find?_map_congr _ _ hg]
    have hl1' : (MemoryStore.invalidate s id).db.find? (fun r => r.id == id)
        = some { m with isValid := 0 } := hl1
    rw [hl1']
    simp [hmid]
  have hc2 : MemoryStore.getCount
      (MemoryStore.update (MemoryStore.invalidate s id) id { isValid := some 1 }).2
      = (s.db.filter (fun r => r.id == id || r.isValid == 1)).length := by
    rw [hs2]
    show (((MemoryStore.invalidate s id).db.map
        (fun r => if r.id == id then { m with isValid := 1 } else r)).filter
        (fun r => r.isValid == 1)).length = _
    rw [hdb1, List.filter_map, List.filter_map, List.length_map, List.length_map]
    congr 1
    apply List.filter_congr
    intro r _
    by_cases h : r.id = id
    · simp [Function.comp, beq_iff_eq, h, hmid]
    · simp [Function.comp, beq_iff_eq, h]
  have hc1 : MemoryStore.getCount (MemoryStore.invalidate s id)
      = (s.db.filter (fun r => r.id != id && r.isValid == 1)).length := by
    show ((MemoryStore.invalidate s id).db.filter (fun r => r.isValid == 1)).length = _
    rw [hdb1, List.filter_map, List.length_map]
    congr 1
    apply List.filter_congr
    intro r _
    by_cases h : r.id = id
    · simp [Function.comp, beq_iff_eq, bne_iff_ne, h]
    · simp [Function.comp, beq_iff_eq, bne_iff_ne, h]
  have hm1db : { m with isValid := 1 } ∈
      (MemoryStore.update (MemoryStore.invalidate s id) id { isValid := some 1 }).2.db := by
    rw [hs2]
    show { m with isValid := 1 } ∈ (MemoryStore.invalidate s id).db.map _
    rw [hdb1]
    apply List.mem_map.mpr
    refine ⟨{ m with isValid := 0 }, ?_, ?_⟩
    · exact List.mem_map.mpr ⟨m, hm_mem, by simp [beq_iff_eq, hmid]⟩
    · simp [beq_iff_eq, hmid]
  refine ⟨by rw [hupd], ?_⟩
  refine ⟨hgetById, ?_, ?_, ?_, ?_, ?_, ?_⟩
  · rw [hc2, hc1]
    exact length_filter_revalidate id s.db hnd ⟨m, hm_mem, hmid⟩
  · unfold MemoryStore.getByCategory
    apply mem_take_all
    · refine List.mem_filter.mpr ⟨mem_sortOrd.mpr (List.mem_filter.mpr ⟨hm1db, ?_⟩), ?_⟩
      · simp
      · simp
    · calc ((sortOrd beforeByIdDesc
            ((MemoryStore.update (MemoryStore.invalidate s id) id
              { isValid := some 1 }).2.db.filter
              (fun r => r.category == m.category))).filter
            (fun r => r.isValid == 1)).length
          ≤ (sortOrd beforeByIdDesc
              ((MemoryStore.update (MemoryStore.invalidate s id) id
                { isValid := some 1 }).2.db.filter
                (fun r => r.category == m.category))).length :=
            List.length_filter_le _ _
        _ = ((MemoryStore.update (MemoryStore.invalidate s id) id
              { isValid := some 1 }).2.db.filter
              (fun r => r.category == m.category)).length := length_sortOrd _ _
        _ ≤ _ := List.length_filter_le _ _
  · unfold MemoryStore.getMostImportant
    apply mem_take_all
    · exact List.mem_filter.mpr ⟨mem_sortOrd.mpr hm1db, by simp⟩
    · calc ((sortOrd beforeByImportanceDesc
            (MemoryStore.update (MemoryStore.invalidate s id)
              id { isValid := some 1 }).2.db).filter (fun r => r.isValid == 1)).length
          ≤ (sortOrd beforeByImportanceDesc
              (MemoryStore.update (MemoryStore.invalidate s id)
                id { isValid := some 1 }).2.db).length := List.length_filter_le _ _
        _ = _ := length_sortOrd _ _
  · unfold MemoryStore.getRecent
    apply mem_take_all
    · exact List.mem_filter.mpr ⟨mem_sortOrd.mpr hm1db, by simp⟩
    · calc ((sortOrd beforeByCreatedDesc
            (MemoryStore.update (MemoryStore.invalidate s id)
              id { isValid := some 1 }).2.db).filter (fun r => r.isValid == 1)).length
          ≤ (sortOrd beforeByCreatedDesc
              (MemoryStore.update (MemoryStore.invalidate s id)
                id { isValid := some 1 }).2.db).length := List.length_filter_le _ _
        _ = _ := length_sortOrd _ _
  · intro e he
    rw [hs2] at he
    have he1 : e ∈ (MemoryStore.invalidate s id).searchIndex := he
    rw [hix1] at he1
    have h2 := (List.mem_filter.mp he1).2
    simpa using h2
  · intro q lim raw now hraw r hr
    obtain ⟨hval, key, hkey, hget⟩ := mem_search_cache hr
    obtain ⟨e2, he2, he2k⟩ := hraw key hkey
    have hkeyne : key ≠ id := by
      rw [← he2k]
      rw [hs2] at he2
      have he2' : e2 ∈ (MemoryStore.invalidate s id).searchIndex := he2
      rw [hix1] at he2'
      have h2 := (List.mem_filter.mp he2').2
      simpa using h2
    obtain ⟨e, he, hek, hev⟩ := alGet_mem hget
    rw [hs2] at he
    have he' : e ∈ alSet id { m with isValid := 1 }
        (MemoryStore.invalidate s id).indexedMemories := he
    have hck2 : e.2.id = e.1 := by
      rcases mem_alSet he' with rfl | hmem
      · simpa using hmid
      · rw [hcache1] at hmem
        exact hck e (List.mem_filter.mp hmem).1
    rw [hev] at hck2
    rw [hck2, hek]
    exact hkeyne

/-- Witness for C10 at the concrete one-record store. -/
theorem revalidated_record_not_searchable_witness :
    (MemoryStore.update (MemoryStore.invalidate c1State "m1") "m1"
        { isValid := some 1 }).1 = some { c1Record with isValid := 1 }
    ∧ MemoryStore.getById
        (MemoryStore.update (MemoryStore.invalidate c1State "m1") "m1"
          { isValid := some 1 }).2 "m1" = some { c1Record with isValid := 1 } :=
  ⟨(revalidated_record_not_searchable c1State "m1" c1Record
      (by decide) (by decide) (by decide)).1,
   (revalidated_record_not_searchable c1State "m1" c1Record
      (by decide) (by decide) (by decide)).2.1⟩

/-! ## C5: cleanup dry run reports without mutating -/

theorem mem_addToGroup {k : String} {m : StoredMemory} :
    ∀ {l : List (String × List StoredMemory)} {entry : String × List StoredMemory},
      entry ∈ addToGroup k m l → ∀ x ∈ entry.2, x = m ∨ ∃ e ∈ l, x ∈ e.2 := by
  intro l
  induction l with
  | nil =>
    intro entry he x hx
    rw [List.mem_singleton.mp he] at hx
    exact Or.inl (List.mem_singleton.mp hx)
  | cons a rest ih =>
    intro entry he x hx
    by_cases hk : (a.1 == k) = true
    · rw [show addToGroup k m (a :: rest) = (a.1, a.2 ++ [m]) :: rest by
          cases a; simp [addToGroup, hk]] at he
      rcases List.mem_cons.mp he with rfl | h2
      · rcases List.mem_append.mp hx with h3 | h3
        · exact Or.inr ⟨a, List.mem_cons_self a rest, h3⟩
        · exact Or.inl (List.mem_singleton.mp h3)
      · exact Or.inr ⟨entry, List.mem_cons_of_mem a h2, hx⟩
    · rw [show addToGroup k m (a :: rest) = a :: addToGroup k m rest by
          cases a; simp [addToGroup]; intro hEq; simp [hEq] at hk] at he
      rcases List.mem_cons.mp he with rfl | h2
      · exact Or.inr ⟨entry, List.mem_cons_self entry rest, hx⟩
      · rcases ih h2 x hx with h3 | ⟨e, he2, hx2⟩
        · exact Or.inl h3
        · exact Or.inr ⟨e, List.mem_cons_of_mem a he2, hx2⟩

theorem mem_groupByNormalized_aux :
    ∀ (ms : List StoredMemory) (acc : List (String × List StoredMemory))
      (entry : String × List StoredMemory),
      entry ∈ ms.foldl (fun acc m => addToGroup (normalizeContent m.content) m acc) acc →
      ∀ x ∈ entry.2, (∃ e ∈ acc, x ∈ e.2) ∨ x ∈ ms := by
  intro ms
  induction ms with
  | nil =>
    intro acc entry he x hx
    exact Or.inl ⟨entry, he, hx⟩
  | cons m t ih =>
    intro acc entry he x hx
    rcases ih _ entry he x hx with h1 | h1
    · obtain ⟨e, he2, hx2⟩ := h1
      rcases mem_addToGroup he2 x hx2 with rfl | ⟨e2, he3, hx3⟩
      · exact Or.inr (List.mem_cons_self x t)
      · exact Or.inl ⟨e2, he3, hx3⟩
    · exact Or.inr (List.mem_cons_of_mem m h1)

theorem mem_groupByNormalized {ms : List StoredMemory}
    {entry : String × List StoredMemory} (he : entry ∈ groupByNormalized ms) :
    ∀ x ∈ entry.2, x ∈ ms := by
  intro x hx
  rcases mem_groupByNormalized_aux ms [] entry he x hx with ⟨e, he2, _⟩ | h1
  · cases he2
  · exact h1

theorem mem_dupFlags_aux :
    ∀ (groups : List (String × List StoredMemory)) (acc : List CleanupItem)
      (it : CleanupItem),
      it ∈ groups.foldl (fun acc g =>
        if 1 < g.2.length then
          acc ++ ((sortOrd beforeByImportanceOnly g.2).drop 1).map (fun m =>
            { id := m.id, reason := "重复内容", content := strTake m.content 30 })
        else acc) acc →
      it ∈ acc ∨ ∃ g ∈ groups, ∃ x ∈ g.2, x.id = it.id := by
  intro groups
  induction groups with
  | nil => intro acc it h; exact Or.inl h
  | cons g gs ih =>
    intro acc it h
    rcases ih _ it h with h1 | ⟨g2, hg2, x, hx, hxid⟩
    · dsimp only at h1
      by_cases hlen : 1 < g.2.length
      · rw [if_pos hlen] at h1
        rcases List.mem_append.mp h1 with h2 | h2
        · exact Or.inl h2
        · obtain ⟨x, hx, hxe⟩ := List.mem_map.mp h2
          refine Or.inr ⟨g, List.mem_cons_self g gs, x, ?_, ?_⟩
          · exact mem_sortOrd.mp (List.drop_subset 1 _ hx)
          · rw [← hxe]
      · rw [if_neg hlen] at h1
        exact Or.inl h1
    · exact Or.inr ⟨g2, List.mem_cons_of_mem g hg2, x, hx, hxid⟩

theorem mem_dupFlags {ms : List StoredMemory} {it : CleanupItem}
    (h : it ∈ dupFlags ms) : ∃ x ∈ ms, x.id = it.id := by
  rcases mem_dupFlags_aux (groupByNormalized ms) [] it h with h1 | ⟨g, hg, x, hx, hxid⟩
  · cases h1
  · exact ⟨x, mem_groupByNormalized hg x hx, hxid⟩

theorem mem_outdatedFlags {now : Nat} :
    ∀ (ms : List StoredMemory) (acc : List CleanupItem) (it : CleanupItem),
      it ∈ outdatedFlags now ms acc → it ∈ acc ∨ ∃ x ∈ ms, x.id = it.id := by
  intro ms
  induction ms with
  | nil => intro acc it h; exact Or.inl h
  | cons m t ih =>
    intro acc it h
    rcases ih _ it h with h1 | ⟨x, hx, hxid⟩
    · dsimp only at h1
      by_cases hdup : acc.any (fun r => r.id == m.id) = true
      · rw [if_pos hdup] at h1
        exact Or.inl h1
      · rw [if_neg hdup] at h1
        by_cases hcond : ((m.createdAt : Int) < (now : Int) - 30 * 24 * 60 * 60 * 1000
            && m.accessCount < 3 && m.importance ≤ 4 && m.category != "fact") = true
        · rw [if_pos hcond] at h1
          rcases List.mem_append.mp h1 with h2 | h2
          · exact Or.inl h2
          · rw [List.mem_singleton.mp h2]
            exact Or.inr ⟨m, List.mem_cons_self m t, rfl⟩
        · rw [if_neg hcond] at h1
          exact Or.inl h1
    · exact Or.inr ⟨x, List.mem_cons_of_mem m hx, hxid⟩

theorem mem_lowImportanceFlags :
    ∀ (ms : List StoredMemory) (acc : List CleanupItem) (it : CleanupItem),
      it ∈ lowImportanceFlags ms acc → it ∈ acc ∨ ∃ x ∈ ms, x.id = it.id := by
  intro ms
  induction ms with
  | nil => intro acc it h; exact Or.inl h
  | cons m t ih =>
    intro acc it h
    rcases ih _ it h with h1 | ⟨x, hx, hxid⟩
    · dsimp only at h1
      by_cases hdup : acc.any (fun r => r.id == m.id) = true
      · rw [if_pos hdup] at h1
        exact Or.inl h1
      · rw [if_neg hdup] at h1
        by_cases hcond : (m.importance ≤ 2 && m.accessCount < 2
            && m.category == "context") = true
        · rw [if_pos hcond] at h1
          rcases List.mem_append.mp h1 with h2 | h2
          · exact Or.inl h2
          · rw [List.mem_singleton.mp h2]
            exact Or.inr ⟨m, List.mem_cons_self m t, rfl⟩
        · rw [if_neg hcond] at h1
          exact Or.inl h1
    · exact Or.inr ⟨x, List.mem_cons_of_mem m hx, hxid⟩

/-- Every flagged cleanup candidate has the id of one of the scanned
(most recent 100 valid) records. -/
theorem mem_cleanupFlagged {s : StoreState} {strategy : String} {now : Nat}
    {it : CleanupItem} (h : it ∈ cleanupFlagged s strategy now) :
    ∃ x ∈ MemoryStore.getRecent s 100, x.id = it.id := by
  unfold cleanupFlagged at h
  have h1 : ∀ it2 ∈ (if (strategy == "duplicates" || strategy == "all") = true
      then dupFlags (MemoryStore.getRecent s 100) else []),
      ∃ x ∈ MemoryStore.getRecent s 100, x.id = it2.id := by
    intro it2 h2
    by_cases hc : (strategy == "duplicates" || strategy == "all") = true
    · rw [if_pos hc] at h2
      exact mem_dupFlags h2
    · rw [if_neg hc] at h2
      cases h2
  have h2 : ∀ it2 ∈ (if (strategy == "outdated" || strategy == "all") = true
      then outdatedFlags now (MemoryStore.getRecent s 100)
        (if (strategy == "duplicates" || strategy == "all") = true
          then dupFlags (MemoryStore.getRecent s 100) else [])
      else (if (strategy == "duplicates" || strategy == "all") = true
        then dupFlags (MemoryStore.getRecent s 100) else [])),
      ∃ x ∈ MemoryStore.getRecent s 100, x.id = it2.id := by
    intro it2 hm
    by_cases hc : (strategy == "outdated" || strategy == "all") = true
    · rw [if_pos hc] at hm
      rcases mem_outdatedFlags _ _ it2 hm with ha | hb
      · exact h1 it2 ha
      · exact hb
    · rw [if_neg hc] at hm
      exact h1 it2 hm
  by_cases hc : (strategy == "low_importance" || strategy == "all") = true
  · rw [if_pos hc] at h
    rcases mem_lowImportanceFlags _ _ it h with ha | hb
    · exact h2 it ha
    · exact hb
  · rw [if_neg hc] at h
    exact h2 it h

/-- The record-table effect of invalidate, found or not. -/
theorem invalidate_db_eq (st : StoreState) (id : String) :
    (MemoryStore.invalidate st id).db
      = st.db.map (fun r => if r.id == id then { r with isValid := 0 } else r) := by
  cases h : lookupDb st id with
  | none =>
    have hnone : ∀ r ∈ st.db, (r.id == id) = false := by
      intro r hr
      have h2 := List.find?_eq_none.mp h r hr
      simpa using h2
    have hcongr : st.db.map (fun r => if r.id == id then { r with isValid := 0 } else r)
        = st.db.map (fun r => r) := by
      apply List.map_congr_left
      intro r hr
      rw [if_neg (by simp [hnone r hr])]
    have hid : MemoryStore.invalidate st id = st := by
      simp [MemoryStore.invalidate, h]
    rw [hid, hcongr]
    simp
  | some m =>
    simp [MemoryStore.invalidate, h]

/-- The record-table effect of invalidating every flagged id in turn. -/
theorem foldl_invalidate_db (items : List CleanupItem) :
    ∀ st : StoreState,
      (items.foldl (fun st it => MemoryStore.invalidate st it.id) st).db
        = st.db.map (fun r =>
            if items.any (fun it => it.id == r.id) then { r with isValid := 0 } else r) := by
  induction items with
  | nil =>
    intro st
    simp
  | cons it rest ih =>
    intro st
    show (rest.foldl (fun st it => MemoryStore.invalidate st it.id)
        (MemoryStore.invalidate st it.id)).db = _
    rw [ih (MemoryStore.invalidate st it.id), invalidate_db_eq st it.id, List.map_map]
    apply List.map_congr_left
    intro r _
    simp only [Function.comp]
    by_cases h1 : r.id = it.id
    · have hb1 : (r.id == it.id) = true := beq_iff_eq.mpr h1
      have hb2 : (it.id == r.id) = true := beq_iff_eq.mpr h1.symm
      simp [hb1, hb2, List.any_cons]
    · have hb1 : (r.id == it.id) = false := beq_eq_false_iff_ne.mpr h1
      have hb2 : (it.id == r.id) = false := beq_eq_false_iff_ne.mpr (Ne.symm h1)
      simp [hb1, hb2, List.any_cons]

/-- Primary-key lookup after the fold of invalidations. -/
theorem lookupDb_foldl_invalidate (items : List CleanupItem) (s : StoreState)
    (hnd : (s.db.map (fun r => r.id)).Nodup) {mm : StoredMemory} (hmm : mm ∈ s.db) :
    lookupDb (items.foldl (fun st it => MemoryStore.invalidate st it.id) s) mm.id
      = some (if items.any (fun it => it.id == mm.id)
          then { mm with isValid := 0 } else mm) := by
  have hstep : ∀ r : StoredMemory,
      ((if items.any (fun it => it.id == r.id) then { r with isValid := 0 } else r).id
        == mm.id) = (r.id == mm.id) := by
    intro r
    by_cases h : items.any (fun it => it.id == r.id) = true
    · rw [if_pos h]
    · rw [if_neg h]
  show (items.foldl (fun st it => MemoryStore.invalidate st it.id) s).db.find?
      (fun r => r.id == mm.id) = _
  rw [foldl_invalidate_db items s, find?_map_congr _ _ hstep,
    find?_id_of_mem_nodup hmm hnd]
  rfl

/-- C5: cleanup_memories with dryRun = true reports the same flagged
list and count as dryRun = false, leaves the store untouched (so every
flagged record, all of which are valid records of the table, stays
valid); with dryRun = false exactly the flagged records become invalid
and every other record is unchanged. -/
theorem cleanup_dryRun_consistent (s : StoreState) (strategy : String) (now : Nat)
    (hnd : (s.db.map (fun r => r.id)).Nodup) :
    (cleanupMemoriesExecute s strategy true now).1.details
        = (cleanupMemoriesExecute s strategy false now).1.details
    ∧ (cleanupMemoriesExecute s strategy true now).1.removed
        = (cleanupMemoriesExecute s strategy false now).1.removed
    ∧ (cleanupMemoriesExecute s strategy true now).2 = s
    ∧ (∀ it ∈ (cleanupMemoriesExecute s strategy true now).1.details,
        ∃ mm ∈ s.db, mm.id = it.id ∧ mm.isValid = 1)
    ∧ (∀ mm ∈ s.db,
        lookupDb (cleanupMemoriesExecute s strategy false now).2 mm.id
          = some (if (cleanupMemoriesExecute s strategy true now).1.details.any
                (fun it => it.id == mm.id)
              then { mm with isValid := 0 } else mm)) := by
  refine ⟨rfl, rfl, ?_, ?_, ?_⟩
  · simp [cleanupMemoriesExecute]
  · intro it hit
    have hit' : it ∈ cleanupFlagged s strategy now := hit
    obtain ⟨x, hx, hxid⟩ := mem_cleanupFlagged hit'
    have hx2 := mem_getRecent hx
    exact ⟨x, hx2.1, hxid, hx2.2⟩
  · intro mm hmm
    have hstate : (cleanupMemoriesExecute s strategy false now).2
        = (cleanupFlagged s strategy now).foldl
            (fun st it => MemoryStore.invalidate st it.id) s := by
      show (if !false && 0 < (cleanupFlagged s strategy now).length then _ else s) = _
      by_cases hlen : 0 < (cleanupFlagged s strategy now).length
      · rw [if_pos (by simp [hlen])]
      · have hnil : cleanupFlagged s strategy now = [] :=
          List.length_eq_zero.mp (by omega)
        rw [if_neg (by simp [hlen]), hnil]
        rfl
    rw [hstate]
    exact lookupDb_foldl_invalidate (cleanupFlagged s strategy now) s hnd hmm

/-- Witness for C5 at the concrete three-record store of scenario A. -/
theorem cleanup_dryRun_consistent_witness :
    (cleanupMemoriesExecute c6s3 "duplicates" true 4000).1.details
        = (cleanupMemoriesExecute c6s3 "duplicates" false 4000).1.details
    ∧ (cleanupMemoriesExecute c6s3 "duplicates" true 4000).2 = c6s3 :=
  ⟨(cleanup_dryRun_consistent c6s3 "duplicates" 4000 (by decide)).1,
   (cleanup_dryRun_consistent c6s3 "duplicates" 4000 (by decide)).2.2.1⟩
